import Mathlib

/-!
Verification development for the roost local HTTPS proxy.

Strings from the Rust source are modelled as lists of characters
(`Str := List Char`).  Unicode lowercasing (`str::to_lowercase`) is
modelled on its ASCII fragment, which is the fragment exercised by
hostnames and SNI values throughout the program.  File-system and
process effects are modelled by explicit state records; TOML and JSON
serialization are external collaborators and are modelled as the
identity on the structured records they carry.
-/

namespace Roost

/-- Rust `String` / `&str`, modelled as a list of characters. -/
abbrev Str := List Char

/-- ASCII model of `char::to_lowercase`: map the 26 uppercase letters down. -/
def lowerChar (c : Char) : Char :=
  if 65 ≤ c.toNat ∧ c.toNat ≤ 90 then Char.ofNat (c.toNat + 32) else c

/-- Model of `str::to_lowercase` (ASCII fragment). -/
def toLowerStr (s : Str) : Str := s.map lowerChar

/-- Model of `str::trim`: drop whitespace from both ends. -/
def trimStr (s : Str) : Str :=
  ((s.dropWhile Char.isWhitespace).reverse.dropWhile Char.isWhitespace).reverse

/-- Model of `s.contains(':')`. -/
def hasColon (s : Str) : Bool := s.any (· = ':')

/-- Model of `s.split(':').next().unwrap_or(s)`: the portion before the first colon. -/
def beforeColon (s : Str) : Str := s.takeWhile (· ≠ ':')

/-- Model of `str::eq_ignore_ascii_case`. -/
def eqIgnoreAsciiCase (a b : Str) : Bool := toLowerStr a = toLowerStr b

/-- Association-list model of `HashMap::get` (keys are unique in every map
the program builds, so first-match lookup is faithful). -/
def tblGet (l : List (Str × α)) (k : Str) : Option α :=
  (l.find? (fun p => p.1 = k)).map (·.2)

/-- Association-list model of `HashMap::insert`: replace the binding in
place, or append a fresh one. -/
def alInsert : List (Str × α) → Str → α → List (Str × α)
  | [], k, v => [(k, v)]
  | (k', v') :: rest, k, v =>
      if k' = k then (k, v) :: rest else (k', v') :: alInsert rest k v

/-- Source of a merged mapping (`MappingSource` in serve/config.rs). -/
inductive MappingSource where
  | project
  | global
deriving DecidableEq, Repr

/-- A single `domain -> port` mapping (`Mapping` in serve/config.rs). -/
structure Mapping where
  domain : Str
  port : Nat
deriving DecidableEq, Repr

/-- `ServeConfig`: ordered mappings plus the configured listen ports. -/
structure ServeConfig where
  mappings : List Mapping
  ports : List Nat
deriving DecidableEq, Repr

/-- `DEFAULT_PORTS` from serve/config.rs. -/
def DEFAULT_PORTS : List Nat := [80, 443]

/-- Insertion step for a sorted list of ports (models `Vec::sort`). -/
def insertSorted (x : Nat) : List Nat → List Nat
  | [] => [x]
  | y :: ys => if x ≤ y then x :: y :: ys else y :: insertSorted x ys

/-- Model of `Vec::sort` on ports. -/
def sortNat (l : List Nat) : List Nat := l.foldr insertSorted []

/-- Model of `Vec::dedup`: remove consecutive duplicates. -/
def dedupAdj : List Nat → List Nat
  | [] => []
  | [x] => [x]
  | x :: y :: rest =>
      if x = y then dedupAdj (y :: rest) else x :: dedupAdj (y :: rest)

/-- `ServeConfig::effective_ports`: configured ports sorted and
deduplicated, or the defaults when none are configured. -/
def effective_ports (c : ServeConfig) : List Nat :=
  if c.ports = [] then DEFAULT_PORTS else dedupAdj (sortNat c.ports)

/-- `ServeConfig::ports_remove`. -/
def ports_remove (c : ServeConfig) (port : Nat) : ServeConfig :=
  if c.ports = [] then
    { c with ports := DEFAULT_PORTS.filter (fun p => p ≠ port) }
  else
    { c with ports := c.ports.filter (fun p => p ≠ port) }

/-- `ServeConfig::ports_list`. -/
def ports_list (c : ServeConfig) : List Nat := effective_ports c

/-- `ServeConfig::add`: drop any binding for the domain, then append. -/
def serveAdd (c : ServeConfig) (domain : Str) (port : Nat) : ServeConfig :=
  { c with mappings :=
      (c.mappings.filter (fun m => m.domain ≠ domain)) ++ [⟨domain, port⟩] }

/-- `ServeConfig::remove`. -/
def serveRemove (c : ServeConfig) (domain : Str) : ServeConfig :=
  { c with mappings := c.mappings.filter (fun m => m.domain ≠ domain) }

/-- `ServeConfig::save`: parent creation and advisory locking are I/O;
the TOML payload carries the full config record. -/
def serveSave (c : ServeConfig) : Option ServeConfig := some c

/-- `ServeConfig::load`: an absent file yields the default config; a
present file is parsed and its empty-domain mappings are dropped. -/
def serveLoad (file : Option ServeConfig) : ServeConfig :=
  match file with
  | none => ⟨[], []⟩
  | some cfg => { cfg with mappings := cfg.mappings.filter (fun m => m.domain ≠ []) }

/-- One `HashMap::insert` pass over a mapping list, with a skip
predicate (`merge_configs_with_source` skips empty domains,
`merge_configs` skips nothing). -/
def mapFold (f : Mapping → α) (skip : Mapping → Bool)
    (ms : List Mapping) (m : List (Str × α)) : List (Str × α) :=
  ms.foldl (fun acc mp => if skip mp then acc else alInsert acc mp.domain (f mp)) m

/-- `merge_configs`: insert global mappings, then project mappings, into
one map; the result is read through `tblGet`. -/
def merge_configs (project global : ServeConfig) : List (Str × Nat) :=
  mapFold (·.port) (fun _ => false) project.mappings
    (mapFold (·.port) (fun _ => false) global.mappings [])

/-- A merged mapping together with its source (`MergedMapping`). -/
structure MergedMapping where
  domain : Str
  port : Nat
  source : MappingSource
deriving DecidableEq, Repr

/-- Byte-order comparison on strings (Rust `String::cmp`), as a Bool. -/
def strLe : Str → Str → Bool
  | [], _ => true
  | _ :: _, [] => false
  | a :: as, b :: bs => if a < b then true else if b < a then false else strLe as bs

/-- The sort relation used by `merge_configs_with_source`'s final
`sort_by(domain cmp)`. -/
def mmLe (a b : MergedMapping) : Prop := strLe a.domain b.domain = true

instance : DecidableRel mmLe := fun a b =>
  inferInstanceAs (Decidable (strLe a.domain b.domain = true))

/-- `merge_configs_with_source`: build the merged map (skipping empty
domains), then emit the entries sorted by domain. -/
def merge_configs_with_source (project global : ServeConfig) : List MergedMapping :=
  let m := mapFold (fun mp => (mp.port, MappingSource.project)) (fun mp => mp.domain = [])
    project.mappings
    (mapFold (fun mp => (mp.port, MappingSource.global)) (fun mp => mp.domain = [])
      global.mappings [])
  List.insertionSort mmLe (m.map (fun p => ⟨p.1, p.2.1, p.2.2⟩))

/-- The port a single serve config assigns to a domain: the most recent
(on-disk last) mapping wins, matching `ServeConfig::add`'s
most-recent-wins order and `HashMap` insertion order. -/
def portOf (c : ServeConfig) (d : Str) : Option Nat :=
  (c.mappings.reverse.find? (fun m => m.domain = d)).map (·.port)

/-- Whether a serve config maps a domain at all. -/
def mappedIn (c : ServeConfig) (d : Str) : Prop := ∃ m ∈ c.mappings, m.domain = d

instance (c : ServeConfig) (d : Str) : Decidable (mappedIn c d) := by
  unfold mappedIn
  infer_instance

/-- Main `config.toml` record: `default_ca` plus the `domain -> ca_name`
map (`Config` in config.rs).  The `HashMap` is modelled as an
association list updated through `alInsert`. -/
structure MainConfig where
  default_ca : Str
  domains : List (Str × Str)
deriving DecidableEq, Repr

/-- `Config::save`: locking and TOML rendering are external; the payload
carries the record. -/
def configSave (c : MainConfig) : Option MainConfig := some c

/-- `Config::load`: an absent file yields the default config. -/
def configLoad (file : Option MainConfig) : MainConfig :=
  match file with
  | none => ⟨[], []⟩
  | some c => c

/-- State seen by the registry operations: the set of existing CAs
(directories satisfying `ca_exists`) and the persisted main config. -/
structure RegState where
  cas : List Str
  config : MainConfig
deriving DecidableEq, Repr

/-- The literal CA name `"default"`. -/
def defaultCaName : Str := "default".data

/-- Registry operations of domain.rs / ca.rs.  `certOk` and `hostsOk`
stand for success of the certificate and hosts-file I/O performed by the
operation; when false the operation fails before mutating the persisted
config. -/
inductive RegOp where
  | addDomain (domain : Str) (exact : Bool) (certOk hostsOk : Bool)
  | removeDomain (domain : Str)
  | setCa (domain ca : Str) (certOk : Bool)
  | removeCa (name : Str)
deriving DecidableEq, Repr

/-- One registry operation; `none` means the operation failed (and the
persisted config is not saved). -/
def regStep (s : RegState) : RegOp → Option RegState
  | .addDomain d _ certOk hostsOk =>
      let ca := if s.config.default_ca = [] then defaultCaName else s.config.default_ca
      if ca ∈ s.cas ∧ certOk = true ∧ hostsOk = true then
        some { s with config := { default_ca := ca,
                                  domains := alInsert s.config.domains d ca } }
      else none
  | .removeDomain d =>
      some { s with config := { s.config with
        domains := s.config.domains.filter (fun p => p.1 ≠ d) } }
  | .setCa d ca certOk =>
      if (s.config.domains.find? (fun p => p.1 = d)).isSome ∧ ca ∈ s.cas ∧ certOk = true then
        some { s with config := { s.config with
          domains := alInsert s.config.domains d ca } }
      else none
  | .removeCa name =>
      if s.config.domains.any (fun p => p.2 = name) then none
      else some { s with cas := s.cas.filter (fun c => c ≠ name) }

/-- Run a sequence of registry operations; a failed operation leaves the
persisted state unchanged (the CLI aborts without saving). -/
def runRegOps (s : RegState) : List RegOp → RegState
  | [] => s
  | op :: ops =>
      match regStep s op with
      | some s' => runRegOps s' ops
      | none => runRegOps s ops

/-- The registry invariant: every `ca_name` in the domains map denotes
an existing CA. -/
def RegInv (s : RegState) : Prop := ∀ p ∈ s.config.domains, p.2 ∈ s.cas

instance (s : RegState) : Decidable (RegInv s) := by
  unfold RegInv
  infer_instance

/-- Error message of `remove_ca` (ca.rs line 82). -/
def removeCaMsg (name domain : Str) : Str :=
  "cannot remove CA '".data ++ name ++ "': domain '".data ++ domain ++ "' uses it".data

/-- `remove_ca`: scan the persisted config; fail naming the first
offending domain, otherwise delete the CA directory (a no-op when the
directory is absent).  Returns the resulting state and the error
message, if any. -/
def remove_ca (s : RegState) (name : Str) : RegState × Option Str :=
  match s.config.domains.find? (fun p => p.2 = name) with
  | some p => (s, some (removeCaMsg name p.1))
  | none => ({ s with cas := s.cas.filter (fun c => c ≠ name) }, none)

/-- On-disk state of one domain's leaf material, as consulted by
`ensure_cert_valid`: presence of `<domain>.pem` and `<domain>-key.pem`,
whether the stored certificate parses and expires within 30 days, and
whether the named CA's files exist. -/
structure LeafState where
  certPresent : Bool
  keyPresent : Bool
  certParseOk : Bool
  expiresWithin30 : Bool
  caExists : Bool
deriving DecidableEq, Repr

/-- `ensure_cert_valid`: regenerate when the certificate file is missing
or expires within 30 days; `none` models an error (unreadable
certificate or missing CA).  Only the certificate file's presence is
consulted, exactly as in cert.rs lines 162 to 168. -/
def ensure_cert_valid (s : LeafState) : Option LeafState :=
  let needsRegen? : Option Bool :=
    if s.certPresent then
      if s.certParseOk then some s.expiresWithin30 else none
    else some true
  match needsRegen? with
  | none => none
  | some needsRegen =>
      if needsRegen then
        if s.caExists then
          some { s with certPresent := true, keyPresent := true,
                        certParseOk := true, expiresWithin30 := false }
        else none
      else some s

/-- SNI values that resolve to no certificate (`UNSUPPORTED_SNI`). -/
def UNSUPPORTED_SNI : List Str := ["localhost".data, "127.0.0.1".data, "::1".data]

/-- Candidate loop of `CertResolverWithFallback::resolve`: skip empty
candidates, return the first table hit under a lowercased key. -/
def resolveLoop (certs : List (Str × Nat)) : List Str → Option Nat
  | [] => none
  | name :: rest =>
      if name = [] then resolveLoop certs rest
      else
        match tblGet certs (toLowerStr name) with
        | some c => some c
        | none => resolveLoop certs rest

/-- `CertResolverWithFallback::resolve`: the certificate table is keyed
by lowercased domain (`build_cert_resolver` inserts lowercased keys);
certificates themselves are abstracted to identifiers. -/
def resolve (certs : List (Str × Nat)) (sni : Option Str) : Option Nat :=
  match sni with
  | none => none
  | some sni0 =>
      let s := trimStr sni0
      if s = [] then none
      else
        let key := toLowerStr s
        if key ∈ UNSUPPORTED_SNI then none
        else
          let candidates := if hasColon s then [s, trimStr (beforeColon s)] else [s]
          resolveLoop certs candidates

/-- Case-insensitive table lookup, as the spec describes the resolver:
compare the lowercased stored key with the (already lowercased) query. -/
def lookupCI (certs : List (Str × Nat)) (key : Str) : Option Nat :=
  (certs.find? (fun p => toLowerStr p.1 = key)).map (·.2)

/-- Modelled from the spec's words for the resolve step, for comparison
with `resolve`: reject absent, blank and local SNI values, then look up
the lowercased SNI case-insensitively, additionally trying the portion
before the first colon. -/
def resolveSpec (certs : List (Str × Nat)) (sni : Option Str) : Option Nat :=
  match sni with
  | none => none
  | some sni0 =>
      let t := toLowerStr (trimStr sni0)
      if t = [] then none
      else if t ∈ UNSUPPORTED_SNI then none
      else
        match lookupCI certs t with
        | some c => some c
        | none =>
            if hasColon t then
              let portion := trimStr (beforeColon t)
              if portion = [] then none else lookupCI certs portion
            else none

/-- Model of `u16::from_str`: optional leading `+`, then decimal digits,
rejecting the empty string and values above 65535. -/
def parseU16 (s : Str) : Option Nat :=
  let t := match s with
    | '+' :: rest => rest
    | _ => s
  if t = [] then none
  else if t.all (·.isDigit) then
    let v := t.foldl (fun a c => a * 10 + (c.toNat - 48)) 0
    if v ≤ 65535 then some v else none
  else none

/-- Model of `str::rfind(':')`: index of the last colon. -/
def rfindColon (s : Str) : Option Nat :=
  match s.reverse.findIdx? (· = ':') with
  | some i => some (s.length - 1 - i)
  | none => none

/-- Strip one trailing dot (`strip_suffix('.')`). -/
def stripTrailingDot (s : Str) : Str :=
  if s.getLast? = some '.' then s.dropLast else s

/-- `parse_host`: split `host[:port]`, honouring bracketed IPv6
literals, and lowercase the host part. -/
def parse_host (input : Str) : Str × Option Nat :=
  let s := trimStr (stripTrailingDot input)
  match s.findIdx? (· = '[') with
  | some bOpen =>
      match (s.drop bOpen).findIdx? (· = ']') with
      | some rel =>
          let e := bOpen + rel + 1
          if e < s.length ∧ (s.drop e).head? = some ':' then
            (toLowerStr (s.take e), parseU16 (s.drop (e + 1)))
          else (toLowerStr s, none)
      | none => (toLowerStr s, none)
  | none =>
      match rfindColon s with
      | some colon =>
          let portStr := (s.drop colon).dropWhile (· = ':')
          match parseU16 portStr with
          | some p => (toLowerStr (s.take colon), some p)
          | none => (toLowerStr s, none)
      | none => (toLowerStr s, none)

/-- Mapping lookup in `proxy_request`: exact `HashMap::get`, then the
case-insensitive linear fallback. -/
def lookupPort (mappings : List (Str × Nat)) (domain : Str) : Option Nat :=
  match tblGet mappings domain with
  | some p => some p
  | none => (mappings.find? (fun kv => eqIgnoreAsciiCase kv.1 domain)).map (·.2)

/-- A client socket address: the rendered IP (already bracketed for
IPv6, as `SocketAddr`'s `Display` renders it) and the remote port. -/
structure SockAddr where
  ip : Str
  port : Nat
deriving DecidableEq, Repr

/-- `SocketAddr::to_string`: the IP followed by a colon and the port. -/
def renderSockAddr (a : SockAddr) : Str :=
  a.ip ++ ':' :: Nat.toDigits 10 a.port

/-- Outcome of `proxy_request`: a 400 for a missing host, a 400 for an
unmapped domain (no backend is contacted), or a forward to a backend
port carrying the three injected `X-Forwarded-*` headers. -/
inductive ProxyOutcome where
  | missingHost
  | unknownDomain
  | forward (port : Nat) (xForwardedFor xForwardedProto xForwardedHost : Str)
deriving DecidableEq, Repr

/-- The backend port of a forwarding outcome. -/
def forwardPort : ProxyOutcome → Option Nat
  | .forward p _ _ _ => some p
  | _ => none

/-- `proxy_request` up to the backend exchange: host extraction, port
choice, and the injected headers. -/
def proxy_request (mappings : List (Str × Nat)) (hostHeader uriAuthority : Option Str)
    (remote : SockAddr) (isTls : Bool) : ProxyOutcome :=
  match hostHeader.or uriAuthority with
  | none => .missingHost
  | some h =>
      let dp := parse_host h
      let port? := match dp.2 with
        | some p => if p = 443 then lookupPort mappings dp.1 else some p
        | none => lookupPort mappings dp.1
      match port? with
      | none => .unknownDomain
      | some p =>
          .forward p (renderSockAddr remote)
            (if isTls then "https".data else "http".data) dp.1

/-- Daemon state persisted in `daemon.json`. -/
structure DaemonState where
  pid : Nat
  projectPath : Option Str
  startedAt : Str
deriving DecidableEq, Repr

/-- Result of `reload_daemon`: the daemon.json contents afterwards, the
PID the reload signal was sent to (if any), and the error message (if
any).  Liveness (`is_pid_alive`, a zero-signal probe) and the SIGHUP
send are modelled by the same `alive` predicate. -/
structure ReloadResult where
  file : Option DaemonState
  signalledPid : Option Nat
  errMsg : Option Str
deriving DecidableEq, Repr

/-- `reload_daemon`: fail when no state file exists; clear a stale file
and fail when the recorded PID is dead; otherwise send SIGHUP. -/
def reload_daemon (file : Option DaemonState) (alive : Nat → Bool) : ReloadResult :=
  match file with
  | none => ⟨none, none, some "Daemon not running".data⟩
  | some st =>
      if alive st.pid then ⟨some st, some st.pid, none⟩
      else ⟨none, none, some "Daemon not running (stale state cleared)".data⟩

/-! ## Character and string lemmas -/

theorem toNat_ofNat_valid (n : Nat) (h : n.isValidChar) : (Char.ofNat n).toNat = n := by
  simp [Char.ofNat, h]
  rfl

theorem toNat_lowerChar (c : Char) :
    (lowerChar c).toNat = if 65 ≤ c.toNat ∧ c.toNat ≤ 90 then c.toNat + 32 else c.toNat := by
  unfold lowerChar
  split
  · next h => exact toNat_ofNat_valid _ (Or.inl (by omega))
  · rfl

theorem char_eq_iff_toNat (a b : Char) : a = b ↔ a.toNat = b.toNat := by
  constructor
  · intro h; rw [h]
  · intro h
    apply Char.ext
    exact UInt32.toNat.inj h

theorem lowerChar_eq_self (c : Char) (h : ¬(65 ≤ c.toNat ∧ c.toNat ≤ 90)) :
    lowerChar c = c := by
  unfold lowerChar
  rw [if_neg h]

theorem isWhitespace_eq_false (c : Char)
    (h32 : c.toNat ≠ 32) (h9 : c.toNat ≠ 9) (h13 : c.toNat ≠ 13) (h10 : c.toNat ≠ 10) :
    c.isWhitespace = false := by
  unfold Char.isWhitespace
  have hs : c ≠ ' ' := fun he => h32 (by rw [he]; decide)
  have ht : c ≠ '\t' := fun he => h9 (by rw [he]; decide)
  have hr : c ≠ '\r' := fun he => h13 (by rw [he]; decide)
  have hn : c ≠ '\n' := fun he => h10 (by rw [he]; decide)
  simp [hs, ht, hr, hn]

theorem isWhitespace_lowerChar (c : Char) :
    (lowerChar c).isWhitespace = c.isWhitespace := by
  by_cases hc : 65 ≤ c.toNat ∧ c.toNat ≤ 90
  · have h := toNat_lowerChar c
    rw [if_pos hc] at h
    rw [isWhitespace_eq_false c (by omega) (by omega) (by omega) (by omega),
        isWhitespace_eq_false _ (by omega) (by omega) (by omega) (by omega)]
  · rw [lowerChar_eq_self c hc]

theorem lowerChar_colon (c : Char) : (lowerChar c = ':') = (c = ':') := by
  apply propext
  rw [char_eq_iff_toNat, char_eq_iff_toNat, toNat_lowerChar]
  have h2 : (':' : Char).toNat = 58 := by decide
  rw [h2]
  split <;> omega

theorem toLowerStr_trimStr (s : Str) : toLowerStr (trimStr s) = trimStr (toLowerStr s) := by
  unfold toLowerStr trimStr
  rw [List.dropWhile_map, ← List.map_reverse, List.dropWhile_map, ← List.map_reverse]
  have hp : (Char.isWhitespace ∘ lowerChar) = Char.isWhitespace := by
    funext c
    exact isWhitespace_lowerChar c

  rw [hp]

theorem toLowerStr_beforeColon (s : Str) :
    toLowerStr (beforeColon s) = beforeColon (toLowerStr s) := by
  unfold toLowerStr beforeColon
  rw [List.takeWhile_map]
  have hp : ((fun c => decide (c ≠ ':')) ∘ lowerChar) = fun c => decide (c ≠ ':') := by
    funext c
    simp only [Function.comp]
    exact decide_eq_decide.mpr (by rw [ne_eq, lowerChar_colon])
  rw [hp]

theorem hasColon_toLowerStr (s : Str) : hasColon (toLowerStr s) = hasColon s := by
  unfold hasColon toLowerStr
  rw [List.any_map]
  congr 1
  funext c
  simp only [Function.comp]
  exact decide_eq_decide.mpr (by rw [lowerChar_colon])

theorem toLowerStr_eq_nil (s : Str) : (toLowerStr s = []) ↔ s = [] := by
  unfold toLowerStr
  exact List.map_eq_nil_iff

/-! ## Association-list lemmas -/

theorem tblGet_nil (k : Str) : tblGet ([] : List (Str × α)) k = none := rfl

theorem tblGet_cons (p : Str × α) (l : List (Str × α)) (k : Str) :
    tblGet (p :: l) k = if p.1 = k then some p.2 else tblGet l k := by
  unfold tblGet
  rw [List.find?_cons]
  by_cases h : p.1 = k
  · simp [h]
  · simp [h]

theorem alInsert_cons_eq (p : Str × α) (rest : List (Str × α)) (k : Str) (v : α)
    (hp : p.1 = k) : alInsert (p :: rest) k v = (k, v) :: rest := by
  cases p with
  | mk k1 v1 =>
      show (if k1 = k then (k, v) :: rest else (k1, v1) :: alInsert rest k v) = (k, v) :: rest
      rw [if_pos hp]

theorem alInsert_cons_ne (p : Str × α) (rest : List (Str × α)) (k : Str) (v : α)
    (hp : p.1 ≠ k) : alInsert (p :: rest) k v = p :: alInsert rest k v := by
  cases p with
  | mk k1 v1 =>
      show (if k1 = k then (k, v) :: rest else (k1, v1) :: alInsert rest k v) = _
      rw [if_neg hp]

theorem tblGet_alInsert (l : List (Str × α)) (k : Str) (v : α) (k' : Str) :
    tblGet (alInsert l k v) k' = if k' = k then some v else tblGet l k' := by
  induction l with
  | nil =>
      by_cases h : k' = k
      · simp [alInsert, tblGet_cons, h]
      · simp [alInsert, tblGet_cons, h, Ne.symm h]
  | cons p rest ih =>
      by_cases hp : p.1 = k
      · rw [alInsert_cons_eq p rest k v hp]
        by_cases h : k' = k
        · simp [tblGet_cons, h]
        · simp [tblGet_cons, h, Ne.symm h, hp]
      · rw [alInsert_cons_ne p rest k v hp]
        rw [tblGet_cons, tblGet_cons, ih]
        by_cases hk : p.1 = k'
        · rw [if_pos hk, if_pos hk, if_neg (by rw [← hk]; exact hp)]
        · rw [if_neg hk, if_neg hk]

theorem mem_alInsert (l : List (Str × α)) (k : Str) (v : α) (x : Str × α)
    (hx : x ∈ alInsert l k v) : x = (k, v) ∨ x ∈ l := by
  induction l with
  | nil =>
      simp [alInsert] at hx
      exact Or.inl hx
  | cons p rest ih =>
      by_cases hp : p.1 = k
      · rw [alInsert_cons_eq p rest k v hp] at hx
        rcases List.mem_cons.mp hx with h | h
        · exact Or.inl h
        · exact Or.inr (List.mem_cons_of_mem _ h)
      · rw [alInsert_cons_ne p rest k v hp] at hx
        rcases List.mem_cons.mp hx with h | h
        · exact Or.inr (h ▸ List.mem_cons_self _ _)
        · rcases ih h with h' | h'
          · exact Or.inl h'
          · exact Or.inr (List.mem_cons_of_mem _ h')

theorem keys_alInsert (l : List (Str × α)) (k : Str) (v : α) :
    (alInsert l k v).map Prod.fst = l.map Prod.fst ∨
    (alInsert l k v).map Prod.fst = l.map Prod.fst ++ [k] := by
  induction l with
  | nil => exact Or.inr (by simp [alInsert])
  | cons p rest ih =>
      by_cases hp : p.1 = k
      · left
        rw [alInsert_cons_eq p rest k v hp]
        simp [hp]
      · rw [alInsert_cons_ne p rest k v hp]
        rcases ih with h | h
        · left; simp [h]
        · right; simp [h]

theorem mem_keys_alInsert (l : List (Str × α)) (k : Str) (v : α) (k' : Str)
    (h : k' ∈ (alInsert l k v).map Prod.fst) : k' ∈ l.map Prod.fst ∨ k' = k := by
  rcases keys_alInsert l k v with he | he
  · rw [he] at h; exact Or.inl h
  · rw [he] at h
    rcases List.mem_append.mp h with h' | h'
    · exact Or.inl h'
    · exact Or.inr (by simpa using h')

theorem nodup_keys_alInsert (l : List (Str × α)) (k : Str) (v : α)
    (h : (l.map Prod.fst).Nodup) : ((alInsert l k v).map Prod.fst).Nodup := by
  induction l with
  | nil => simp [alInsert]
  | cons p rest ih =>
      by_cases hp : p.1 = k
      · rw [alInsert_cons_eq p rest k v hp]
        rw [List.map_cons] at h ⊢
        rw [← hp]
        exact h
      · rw [alInsert_cons_ne p rest k v hp]
        simp only [List.map_cons, List.nodup_cons] at h ⊢
        refine ⟨fun hc => ?_, ih h.2⟩
        rcases mem_keys_alInsert rest k v p.1 hc with h' | h'
        · exact h.1 h'
        · exact hp h'

theorem tblGet_eq_some_of_mem (l : List (Str × α)) (k : Str) (v : α)
    (hnd : (l.map Prod.fst).Nodup) (hm : (k, v) ∈ l) : tblGet l k = some v := by
  induction l with
  | nil => cases hm
  | cons p rest ih =>
      simp only [List.map_cons, List.nodup_cons] at hnd
      rcases List.mem_cons.mp hm with h | h
      · rw [← h, tblGet_cons, if_pos rfl]
      · rw [tblGet_cons]
        have hk : p.1 ≠ k := by
          intro he
          exact hnd.1 (he ▸ List.mem_map_of_mem Prod.fst h)
        rw [if_neg hk]
        exact ih hnd.2 h

theorem mapFold_cons (f : Mapping → α) (skip : Mapping → Bool) (mp : Mapping)
    (ms : List Mapping) (m : List (Str × α)) :
    mapFold f skip (mp :: ms) m =
      mapFold f skip ms (if skip mp then m else alInsert m mp.domain (f mp)) := rfl

/-- The binding a `mapFold` pass leaves for a domain: the last
non-skipped mapping for that domain wins, and an untouched domain keeps
its previous binding. -/
theorem tblGet_mapFold (f : Mapping → α) (skip : Mapping → Bool) (ms : List Mapping)
    (m : List (Str × α)) (d : Str) :
    tblGet (mapFold f skip ms m) d =
      match ms.reverse.find? (fun mp => decide (mp.domain = d) && !skip mp) with
      | some mp => some (f mp)
      | none => tblGet m d := by
  induction ms generalizing m with
  | nil => rfl
  | cons mp ms ih =>
      rw [mapFold_cons, ih, List.reverse_cons, List.find?_append]
      cases hfind : ms.reverse.find? (fun mp => decide (mp.domain = d) && !skip mp) with
      | some mp' => rfl
      | none =>
          show tblGet (if skip mp then m else alInsert m mp.domain (f mp)) d =
            match List.find? (fun mp => decide (mp.domain = d) && !skip mp) [mp] with
            | some mp => some (f mp)
            | none => tblGet m d
          rw [List.find?_cons]
          by_cases hs : skip mp = true
          · rw [if_pos hs]
            simp only [hs, Bool.not_true, Bool.and_false]
            rfl
          · rw [if_neg hs]
            rw [Bool.not_eq_true] at hs
            rw [tblGet_alInsert]
            by_cases hd : mp.domain = d
            · rw [if_pos hd.symm]
              have hdec : decide (mp.domain = d) = true := decide_eq_true hd
              rw [hdec, hs, Bool.not_false, Bool.and_true]
            · rw [if_neg fun he => hd he.symm]
              have hdec : decide (mp.domain = d) = false := decide_eq_false hd
              rw [hdec, Bool.false_and]
              rfl

/-! ## Port-list lemmas -/

theorem mem_insertSorted (x y : Nat) (l : List Nat) :
    x ∈ insertSorted y l ↔ x = y ∨ x ∈ l := by
  induction l with
  | nil => simp [insertSorted]
  | cons z zs ih =>
      unfold insertSorted
      by_cases h : y ≤ z
      · rw [if_pos h]
        simp [or_assoc]
      · rw [if_neg h]
        simp only [List.mem_cons, ih]
        tauto

theorem mem_sortNat (x : Nat) (l : List Nat) : x ∈ sortNat l ↔ x ∈ l := by
  induction l with
  | nil => simp [sortNat]
  | cons y ys ih =>
      show x ∈ insertSorted y (sortNat ys) ↔ _
      rw [mem_insertSorted, ih]
      simp

theorem mem_dedupAdj (x : Nat) (l : List Nat) : x ∈ dedupAdj l ↔ x ∈ l := by
  induction l with
  | nil => simp [dedupAdj]
  | cons y ys ih =>
      cases ys with
      | nil => simp [dedupAdj]
      | cons z zs =>
          unfold dedupAdj
          by_cases h : y = z
          · rw [if_pos h]
            rw [ih]
            subst h
            simp only [List.mem_cons]
            tauto
          · rw [if_neg h]
            simp only [List.mem_cons] at ih ⊢
            rw [ih]

/-! ## Claim theorems: ports (C6) -/

/-- C6 (as stated, refuted): with configured ports `[80]`, removing port
80 empties the configured list, and `ports_list` then resurrects the
defaults, so 80 is still an element afterwards. -/
theorem c6_counterexample :
    80 ∈ ports_list (ports_remove ⟨[], [80]⟩ 80) := by decide

/-- C6 (amended): `ports_remove p` on an empty configured list first
materializes the defaults `[80, 443]` and then removes `p`; afterwards
`p` is not an element of `ports_list()` — except when the removal leaves
a previously non-empty configured list empty while `p` is one of the
default ports, in which case the defaults (including `p`) reappear. -/
theorem c6_ports_remove (c : ServeConfig) (p : Nat)
    (h : c.ports = [] ∨ c.ports.filter (fun q => q ≠ p) ≠ [] ∨ p ∉ DEFAULT_PORTS) :
    (c.ports = [] →
      (ports_remove c p).ports = DEFAULT_PORTS.filter (fun q => q ≠ p)) ∧
    p ∉ ports_list (ports_remove c p) := by
  have hfilter : ∀ l : List Nat, p ∉ l.filter (fun q => q ≠ p) := by
    intro l hc
    rcases List.mem_filter.mp hc with ⟨_, hne⟩
    exact (of_decide_eq_true hne) rfl
  constructor
  · intro he
    unfold ports_remove
    rw [if_pos he]
  · unfold ports_list effective_ports ports_remove
    by_cases he : c.ports = []
    · rw [if_pos he]
      have hne : DEFAULT_PORTS.filter (fun q => q ≠ p) ≠ [] := by
        intro hnil
        by_cases h80 : (80 : Nat) = p
        · have h443 : (443 : Nat) ≠ p := by omega
          have : (443 : Nat) ∈ DEFAULT_PORTS.filter (fun q => q ≠ p) := by
            rw [List.mem_filter]
            exact ⟨by decide, decide_eq_true h443⟩
          rw [hnil] at this
          cases this
        · have : (80 : Nat) ∈ DEFAULT_PORTS.filter (fun q => q ≠ p) := by
            rw [List.mem_filter]
            exact ⟨by decide, decide_eq_true h80⟩
          rw [hnil] at this
          cases this
      simp only [if_neg hne]
      intro hc
      exact hfilter _ ((mem_sortNat _ _).mp ((mem_dedupAdj _ _).mp hc))
    · rw [if_neg he]
      rcases h with h | h | h
      · exact absurd h he
      · simp only [if_neg h]
        intro hc
        exact hfilter _ ((mem_sortNat _ _).mp ((mem_dedupAdj _ _).mp hc))
      · by_cases hnil : c.ports.filter (fun q => q ≠ p) = []
        · simp only [if_pos hnil]
          exact h
        · simp only [if_neg hnil]
          intro hc
          exact hfilter _ ((mem_sortNat _ _).mp ((mem_dedupAdj _ _).mp hc))

/-- Witness for C6: removing port 443 from configured ports
`[8080, 443]` leaves `ports_list() = [8080]`. -/
theorem c6_ports_remove_witness :
    ((⟨[], [8080, 443]⟩ : ServeConfig).ports = [] ∨
      (⟨[], [8080, 443]⟩ : ServeConfig).ports.filter (fun q => q ≠ 443) ≠ [] ∨
      443 ∉ DEFAULT_PORTS) ∧
    (((⟨[], [8080, 443]⟩ : ServeConfig).ports = [] →
      (ports_remove ⟨[], [8080, 443]⟩ 443).ports =
        DEFAULT_PORTS.filter (fun q => q ≠ 443)) ∧
    443 ∉ ports_list (ports_remove ⟨[], [8080, 443]⟩ 443)) :=
  ⟨by decide, c6_ports_remove ⟨[], [8080, 443]⟩ 443 (by decide)⟩

theorem mem_of_tblGet_eq_some (l : List (Str × α)) (k : Str) (v : α)
    (h : tblGet l k = some v) : (k, v) ∈ l := by
  induction l with
  | nil => simp [tblGet_nil] at h
  | cons p rest ih =>
      rw [tblGet_cons] at h
      by_cases hp : p.1 = k
      · rw [if_pos hp] at h
        have hv : p.2 = v := by injection h
        have hpe : p = (k, v) := Prod.ext hp hv
        rw [← hpe]
        exact List.mem_cons_self _ _
      · rw [if_neg hp] at h
        exact List.mem_cons_of_mem _ (ih h)

/-! ## Claim theorems: registry invariant (C1), roundtrip (C7), remove_ca (C8) -/

theorem regStep_preserves_inv (s s' : RegState) (op : RegOp)
    (h : RegInv s) (hstep : regStep s op = some s') : RegInv s' := by
  cases op with
  | addDomain d ex certOk hostsOk =>
      simp only [regStep] at hstep
      split at hstep
      all_goals
        split at hstep
        · next hcond =>
            injection hstep with hs
            subst hs
            intro p hp
            rcases mem_alInsert _ _ _ _ hp with hpe | hpm
            · rw [hpe]
              exact hcond.1
            · exact h p hpm
        · cases hstep
  | removeDomain d =>
      injection hstep with hs
      subst hs
      intro p hp
      exact h p (List.mem_filter.mp hp).1
  | setCa d ca certOk =>
      simp only [regStep] at hstep
      split at hstep
      · next hcond =>
          injection hstep with hs
          subst hs
          intro p hp
          rcases mem_alInsert _ _ _ _ hp with hpe | hpm
          · rw [hpe]
            exact hcond.2.1
          · exact h p hpm
      · cases hstep
  | removeCa name =>
      simp only [regStep] at hstep
      split at hstep
      · cases hstep
      · next hany =>
          injection hstep with hs
          subst hs
          intro p hp
          have hne : p.2 ≠ name := by
            intro he
            exact hany (List.any_eq_true.mpr ⟨p, hp, decide_eq_true he⟩)
          rw [List.mem_filter]
          exact ⟨h p hp, decide_eq_true hne⟩

/-- C1: starting from a state whose main config only references existing
CAs, running any sequence of registry operations (add_domain, set_ca,
remove_domain, remove_ca) preserves the invariant: every `ca_name` in
the domains map still denotes an existing CA (a failed operation leaves
the persisted state unchanged). -/
theorem c1_registry_invariant (s : RegState) (ops : List RegOp) (h : RegInv s) :
    RegInv (runRegOps s ops) := by
  induction ops generalizing s with
  | nil => exact h
  | cons op rest ih =>
      show RegInv (match regStep s op with
        | some s' => runRegOps s' rest
        | none => runRegOps s rest)
      cases hstep : regStep s op with
      | some s' => exact ih s' (regStep_preserves_inv s s' op h hstep)
      | none => exact ih s h

/-- Witness for C1: a concrete run (add a domain, rebind it, remove a
CA) from a concrete invariant-satisfying state. -/
theorem c1_registry_invariant_witness :
    RegInv (runRegOps ⟨["default".data, "custom".data], ⟨"default".data, []⟩⟩
      [.addDomain "api.test".data false true true,
       .setCa "api.test".data "custom".data true,
       .removeCa "default".data]) :=
  c1_registry_invariant ⟨["default".data, "custom".data], ⟨"default".data, []⟩⟩
    [.addDomain "api.test".data false true true,
     .setCa "api.test".data "custom".data true,
     .removeCa "default".data] (by decide)

/-- C7 (as stated, refuted): a serve config containing an empty-domain
mapping does not survive a save/load roundtrip, because load filters
empty-domain mappings while save writes them out. -/
theorem c7_counterexample :
    serveLoad (serveSave ⟨[⟨[], 3000⟩], []⟩) ≠ (⟨[⟨[], 3000⟩], []⟩ : ServeConfig) := by
  decide

/-- C7 (amended): `load(save(c)) = c` for every main config, and for
every serve config whose mappings all carry a non-empty domain (load
drops empty-domain mappings, so configs containing one are excluded). -/
theorem c7_save_load_roundtrip :
    (∀ c : MainConfig, configLoad (configSave c) = c) ∧
    (∀ c : ServeConfig, (∀ m ∈ c.mappings, m.domain ≠ []) →
      serveLoad (serveSave c) = c) := by
  constructor
  · intro c
    rfl
  · intro c hc
    show ({ c with mappings := c.mappings.filter (fun m => m.domain ≠ []) } : ServeConfig) = c
    have hf : c.mappings.filter (fun m => m.domain ≠ []) = c.mappings := by
      apply List.filter_eq_self.mpr
      intro m hm
      exact decide_eq_true (hc m hm)
    rw [hf]

/-- Witness for C7: concrete roundtrips for a main config and a serve
config with non-empty domains. -/
theorem c7_save_load_roundtrip_witness :
    configLoad (configSave ⟨"default".data, [("api.test".data, "default".data)]⟩) =
      ⟨"default".data, [("api.test".data, "default".data)]⟩ ∧
    serveLoad (serveSave ⟨[⟨"api.test".data, 5001⟩], [80, 443]⟩) =
      ⟨[⟨"api.test".data, 5001⟩], [80, 443]⟩ :=
  ⟨c7_save_load_roundtrip.1 ⟨"default".data, [("api.test".data, "default".data)]⟩,
   c7_save_load_roundtrip.2 ⟨[⟨"api.test".data, 5001⟩], [80, 443]⟩ (by decide)⟩

/-- C8: `remove_ca(name)` fails whenever some domain maps to `name`,
with a message containing both an offending domain and the CA name, and
leaves the state (in particular the CA directory set) unchanged; when no
domain references `name` it succeeds — also when the directory is
already absent — removing the directory from the CA set. -/
theorem c8_remove_ca (s : RegState) (name : Str) :
    ((∃ p ∈ s.config.domains, p.2 = name) →
      ∃ d msg, (remove_ca s name).2 = some msg ∧ (d, name) ∈ s.config.domains ∧
        (∃ l r, msg = l ++ d ++ r) ∧ (∃ l r, msg = l ++ name ++ r) ∧
        (remove_ca s name).1 = s) ∧
    ((∀ p ∈ s.config.domains, p.2 ≠ name) →
      (remove_ca s name).2 = none ∧
      (remove_ca s name).1.cas = s.cas.filter (fun c => c ≠ name) ∧
      (remove_ca s name).1.config = s.config) := by
  constructor
  · intro hex
    cases hfind : s.config.domains.find? (fun p => p.2 = name) with
    | none =>
        rcases hex with ⟨p, hp, he⟩
        have := List.find?_eq_none.mp hfind p hp
        exact absurd (decide_eq_true he) this
    | some p =>
        have hdec := List.find?_some hfind
        have hpn : p.2 = name := of_decide_eq_true hdec
        have hpm : p ∈ s.config.domains := List.mem_of_find?_eq_some hfind
        refine ⟨p.1, removeCaMsg name p.1, ?_, ?_, ?_, ?_, ?_⟩
        · show (remove_ca s name).2 = _
          unfold remove_ca
          rw [hfind]
        · rw [← hpn]
          exact hpm
        · exact ⟨"cannot remove CA '".data ++ name ++ "': domain '".data,
            "' uses it".data, by simp [removeCaMsg]⟩
        · exact ⟨"cannot remove CA '".data,
            "': domain '".data ++ p.1 ++ "' uses it".data, by simp [removeCaMsg]⟩
        · unfold remove_ca
          rw [hfind]
  · intro hall
    have hfind : s.config.domains.find? (fun p => p.2 = name) = none := by
      apply List.find?_eq_none.mpr
      intro p hp
      simp only [decide_eq_true_eq]
      exact hall p hp
    unfold remove_ca
    rw [hfind]
    exact ⟨rfl, rfl, rfl⟩

/-- Witness for C8: with `domains = [api.test -> inuse]`, removing CA
`inuse` fails with a message naming both, and removing CA `other`
succeeds. -/
theorem c8_remove_ca_witness :
    ∃ d msg,
      (remove_ca ⟨["inuse".data], ⟨"inuse".data, [("api.test".data, "inuse".data)]⟩⟩
        "inuse".data).2 = some msg ∧
      (d, "inuse".data) ∈ [("api.test".data, "inuse".data)] ∧
      (∃ l r, msg = l ++ d ++ r) ∧ (∃ l r, msg = l ++ "inuse".data ++ r) ∧
      (remove_ca ⟨["inuse".data], ⟨"inuse".data, [("api.test".data, "inuse".data)]⟩⟩
        "inuse".data).1 =
        ⟨["inuse".data], ⟨"inuse".data, [("api.test".data, "inuse".data)]⟩⟩ :=
  (c8_remove_ca ⟨["inuse".data], ⟨"inuse".data, [("api.test".data, "inuse".data)]⟩⟩
    "inuse".data).1 (by decide)

/-! ## Claim theorems: daemon reload (C9), cert renewal (C5) -/

/-- C9: daemon reload fails with a message containing "not running"
exactly when no live daemon exists — state file absent, or recorded PID
dead (then the stale file is also removed) — and with a live PID the
reload signal is sent to it and the operation succeeds. -/
theorem c9_reload_daemon (file : Option DaemonState) (alive : Nat → Bool) :
    ((∃ m, (reload_daemon file alive).errMsg = some m ∧
        ∃ l r, m = l ++ "not running".data ++ r) ↔
      (file = none ∨ ∃ st, file = some st ∧ alive st.pid = false)) ∧
    (∀ st, file = some st → alive st.pid = false →
      (reload_daemon file alive).file = none) ∧
    (∀ st, file = some st → alive st.pid = true →
      (reload_daemon file alive).errMsg = none ∧
      (reload_daemon file alive).signalledPid = some st.pid) := by
  cases file with
  | none =>
      refine ⟨?_, ?_, ?_⟩
      · constructor
        · intro _
          exact Or.inl rfl
        · intro _
          exact ⟨"Daemon not running".data, rfl, "Daemon ".data, [], by decide⟩
      · intro st hst
        cases hst
      · intro st hst
        cases hst
  | some st =>
      have hred : reload_daemon (some st) alive =
          if alive st.pid then ⟨some st, some st.pid, none⟩
          else ⟨none, none, some "Daemon not running (stale state cleared)".data⟩ := rfl
      by_cases ha : alive st.pid = true
      · rw [hred, if_pos ha]
        refine ⟨?_, ?_, ?_⟩
        · constructor
          · intro hm
            rcases hm with ⟨m, hm, _⟩
            cases hm
          · intro hor
            rcases hor with h | ⟨st', hst', hdead⟩
            · cases h
            · injection hst' with he
              rw [← he, ha] at hdead
              cases hdead
        · intro st' hst' hdead
          injection hst' with he
          rw [← he, ha] at hdead
          cases hdead
        · intro st' hst' _
          injection hst' with he
          subst he
          exact ⟨rfl, rfl⟩
      · rw [Bool.not_eq_true] at ha
        rw [hred, if_neg (by rw [ha]; exact Bool.false_ne_true)]
        refine ⟨?_, ?_, ?_⟩
        · constructor
          · intro _
            exact Or.inr ⟨st, rfl, ha⟩
          · intro _
            exact ⟨"Daemon not running (stale state cleared)".data, rfl,
              "Daemon ".data, " (stale state cleared)".data, by decide⟩
        · intro st' hst' _
          rfl
        · intro st' hst' hlive
          injection hst' with he
          rw [← he, ha] at hlive
          cases hlive

/-- Witness for C9: a live PID 42 gets the reload signal; a dead PID 7
yields a "not running" failure and a cleared state file. -/
theorem c9_reload_daemon_witness :
    ((reload_daemon (some ⟨42, none, "t".data⟩) (fun p => decide (p = 42))).errMsg = none ∧
     (reload_daemon (some ⟨42, none, "t".data⟩) (fun p => decide (p = 42))).signalledPid =
       some 42) ∧
    (reload_daemon (some ⟨7, none, "t".data⟩) (fun p => decide (p = 42))).file = none :=
  ⟨(c9_reload_daemon (some ⟨42, none, "t".data⟩) (fun p => decide (p = 42))).2.2
      ⟨42, none, "t".data⟩ rfl (by decide),
   (c9_reload_daemon (some ⟨7, none, "t".data⟩) (fun p => decide (p = 42))).2.1
      ⟨7, none, "t".data⟩ rfl (by decide)⟩

/-- C5: the claim says a present leaf certificate with an absent key
file is treated as a missing pair and regenerated; the code consults
only the certificate file, so with the certificate present, parsing,
and far from expiry but the key file absent, `ensure_cert_valid` is a
no-op and the key file stays absent. -/
theorem c5_key_absent_no_regen :
    ensure_cert_valid ⟨true, false, true, false, true⟩ =
      some ⟨true, false, true, false, true⟩ ∧
    (ensure_cert_valid ⟨false, false, true, false, true⟩).map (fun st => st.keyPresent) =
      some true ∧
    (ensure_cert_valid ⟨true, true, true, true, true⟩).map (fun st => st.expiresWithin30) =
      some false := by
  decide




/-! ## String-order lemmas and merge lemmas (C3) -/

theorem strLe_nil (t : Str) : strLe [] t = true := rfl

theorem strLe_total (s t : Str) : strLe s t = true ∨ strLe t s = true := by
  induction s generalizing t with
  | nil => exact Or.inl rfl
  | cons a as ih =>
      cases t with
      | nil => exact Or.inr rfl
      | cons b bs =>
          rcases lt_trichotomy a b with h | h | h
          · left
            show (if a < b then true else if b < a then false else strLe as bs) = true
            rw [if_pos h]
          · subst h
            have hred : ∀ xs ys, strLe (a :: xs) (a :: ys) = strLe xs ys := by
              intro xs ys
              show (if a < a then true else if a < a then false else strLe xs ys) = _
              rw [if_neg (lt_irrefl a), if_neg (lt_irrefl a)]
            rw [hred, hred]
            exact ih bs
          · right
            show (if b < a then true else if a < b then false else strLe bs as) = true
            rw [if_pos h]

theorem strLe_trans (s t u : Str) (h1 : strLe s t = true) (h2 : strLe t u = true) :
    strLe s u = true := by
  induction s generalizing t u with
  | nil => exact rfl
  | cons a as ih =>
      cases t with
      | nil => exact absurd h1 (by simp [strLe])
      | cons b bs =>
          cases u with
          | nil => exact absurd h2 (by simp [strLe])
          | cons c cs =>
              have hst : (if a < b then true else if b < a then false else strLe as bs)
                  = true := h1
              have htu : (if b < c then true else if c < b then false else strLe bs cs)
                  = true := h2
              show (if a < c then true else if c < a then false else strLe as cs) = true
              rcases lt_trichotomy a b with hab | hab | hab
              · rcases lt_trichotomy b c with hbc | hbc | hbc
                · rw [if_pos (lt_trans hab hbc)]
                · subst hbc
                  rw [if_pos hab]
                · rw [if_neg (asymm hbc), if_pos hbc] at htu
                  cases htu
              · subst hab
                rcases lt_trichotomy a c with hac | hac | hac
                · rw [if_pos hac]
                · subst hac
                  rw [if_neg (lt_irrefl a), if_neg (lt_irrefl a)] at hst htu ⊢
                  exact ih bs cs hst htu
                · rw [if_neg (asymm hac), if_pos hac] at htu
                  cases htu
              · rw [if_neg (asymm hab), if_pos hab] at hst
                cases hst

instance : IsTotal MergedMapping mmLe :=
  ⟨fun a b => strLe_total a.domain b.domain⟩

instance : IsTrans MergedMapping mmLe :=
  ⟨fun a b c => strLe_trans a.domain b.domain c.domain⟩

theorem someOrLeft (a : α) (o : Option α) : (some a).or o = some a := rfl

theorem noneOrLeft (o : Option α) : (Option.none : Option α).or o = o := rfl

theorem find?_congr_mem (l : List α) (p q : α → Bool)
    (h : ∀ a ∈ l, p a = q a) : l.find? p = l.find? q := by
  induction l with
  | nil => rfl
  | cons a as ih =>
      rw [List.find?_cons, List.find?_cons, h a (List.mem_cons_self a as),
        ih (fun x hx => h x (List.mem_cons_of_mem a hx))]

theorem nodup_keys_mapFold (f : Mapping → α) (skip : Mapping → Bool)
    (ms : List Mapping) (m : List (Str × α))
    (h : (m.map Prod.fst).Nodup) : ((mapFold f skip ms m).map Prod.fst).Nodup := by
  induction ms generalizing m with
  | nil => exact h
  | cons mp ms ih =>
      rw [mapFold_cons]
      by_cases hs : skip mp = true
      · rw [if_pos hs]
        exact ih m h
      · rw [if_neg hs]
        exact ih _ (nodup_keys_alInsert m mp.domain (f mp) h)

/-- The assignment `merge_configs` computes: the project's
most-recent-wins port when present, else the global's. -/
theorem merge_configs_lookup (P G : ServeConfig) (d : Str) :
    tblGet (merge_configs P G) d = (portOf P d).or (portOf G d) := by
  unfold merge_configs portOf
  rw [tblGet_mapFold, tblGet_mapFold]
  have hcongr : ∀ ms : List Mapping,
      ms.find? (fun mp => decide (mp.domain = d) && !(fun _ => false) mp)
        = ms.find? (fun mp => decide (mp.domain = d)) := by
    intro ms
    apply find?_congr_mem
    intro a _
    show (decide (a.domain = d) && !false) = decide (a.domain = d)
    rw [Bool.not_false, Bool.and_true]
  rw [hcongr, hcongr]
  cases P.mappings.reverse.find? (fun mp => decide (mp.domain = d)) with
  | some mp => rfl
  | none =>
      cases G.mappings.reverse.find? (fun mp => decide (mp.domain = d)) with
      | some mp => rfl
      | none => rfl

theorem with_source_assoc_lookup (P G : ServeConfig) (d : Str)
    (hP : ∀ m ∈ P.mappings, m.domain ≠ []) (hG : ∀ m ∈ G.mappings, m.domain ≠ []) :
    tblGet (mapFold (fun mp => (mp.port, MappingSource.project))
        (fun mp => mp.domain = []) P.mappings
        (mapFold (fun mp => (mp.port, MappingSource.global))
          (fun mp => mp.domain = []) G.mappings [])) d =
      match P.mappings.reverse.find? (fun mp => decide (mp.domain = d)) with
      | some mp => some (mp.port, MappingSource.project)
      | none =>
          match G.mappings.reverse.find? (fun mp => decide (mp.domain = d)) with
          | some mp => some (mp.port, MappingSource.global)
          | none => none := by
  rw [tblGet_mapFold, tblGet_mapFold]
  have hcongr : ∀ ms : List Mapping, (∀ m ∈ ms, m.domain ≠ []) →
      ms.reverse.find? (fun mp => decide (mp.domain = d) && !decide (mp.domain = []))
        = ms.reverse.find? (fun mp => decide (mp.domain = d)) := by
    intro ms hms
    apply find?_congr_mem
    intro a ha
    have hne : a.domain ≠ [] := hms a (List.mem_reverse.mp ha)
    rw [decide_eq_false hne, Bool.not_false, Bool.and_true]
  rw [hcongr P.mappings hP, hcongr G.mappings hG]
  cases P.mappings.reverse.find? (fun mp => decide (mp.domain = d)) with
  | some mp => rfl
  | none =>
      cases G.mappings.reverse.find? (fun mp => decide (mp.domain = d)) with
      | some mp => rfl
      | none => rfl

theorem mem_with_source_iff_assoc (P G : ServeConfig) (e : MergedMapping) :
    e ∈ merge_configs_with_source P G ↔
      tblGet (mapFold (fun mp => (mp.port, MappingSource.project))
          (fun mp => mp.domain = []) P.mappings
          (mapFold (fun mp => (mp.port, MappingSource.global))
            (fun mp => mp.domain = []) G.mappings [])) e.domain
        = some (e.port, e.source) := by
  unfold merge_configs_with_source
  rw [(List.perm_insertionSort mmLe _).mem_iff, List.mem_map]
  have hnd := nodup_keys_mapFold (fun mp => (mp.port, MappingSource.project))
    (fun mp => mp.domain = []) P.mappings
    (mapFold (fun mp => (mp.port, MappingSource.global))
      (fun mp => mp.domain = []) G.mappings [])
    (nodup_keys_mapFold _ _ G.mappings [] List.nodup_nil)
  constructor
  · rintro ⟨p, hp, he⟩
    have : p = (e.domain, (e.port, e.source)) := by
      rw [← he]
    rw [this] at hp
    exact tblGet_eq_some_of_mem _ _ _ hnd hp
  · intro h
    refine ⟨(e.domain, (e.port, e.source)), mem_of_tblGet_eq_some _ _ _ h, rfl⟩

/-- C3 (as stated, refuted): `merge_configs` keeps an empty-domain
mapping while `merge_configs_with_source` filters it, so the two do not
compute the same domain-to-port assignment on such configs. -/
theorem c3_counterexample :
    tblGet (merge_configs ⟨[⟨[], 1⟩], []⟩ ⟨[], []⟩) [] = some 1 ∧
    merge_configs_with_source ⟨[⟨[], 1⟩], []⟩ ⟨[], []⟩ = [] := by
  decide

/-- C3 (amended): for configs whose mappings all carry a non-empty
domain, `merge_configs` assigns each domain the project port when the
project maps it and the global port otherwise, and
`merge_configs_with_source` yields exactly that assignment as a list
sorted by domain, labelling an entry Project precisely when the project
config maps its domain. -/
theorem c3_merge (P G : ServeConfig)
    (hP : ∀ m ∈ P.mappings, m.domain ≠ []) (hG : ∀ m ∈ G.mappings, m.domain ≠ []) :
    (∀ d, tblGet (merge_configs P G) d = (portOf P d).or (portOf G d)) ∧
    (∀ e, e ∈ merge_configs_with_source P G ↔
      (tblGet (merge_configs P G) e.domain = some e.port ∧
        e.source = (if mappedIn P e.domain then MappingSource.project
          else MappingSource.global))) ∧
    (merge_configs_with_source P G).Pairwise mmLe := by
  refine ⟨fun d => merge_configs_lookup P G d, fun e => ?_,
    List.sorted_insertionSort mmLe _⟩
  rw [mem_with_source_iff_assoc P G e, with_source_assoc_lookup P G e.domain hP hG,
    merge_configs_lookup P G e.domain]
  unfold portOf
  have hmapped : mappedIn P e.domain ↔
      (P.mappings.reverse.find? (fun mp => decide (mp.domain = e.domain))).isSome := by
    rw [List.find?_isSome]
    constructor
    · rintro ⟨m, hm, he⟩
      exact ⟨m, List.mem_reverse.mpr hm, decide_eq_true he⟩
    · rintro ⟨m, hm, he⟩
      exact ⟨m, List.mem_reverse.mp hm, of_decide_eq_true he⟩
  cases hfp : P.mappings.reverse.find? (fun mp => decide (mp.domain = e.domain)) with
  | some mp =>
      have hm : mappedIn P e.domain := hmapped.mpr (by rw [hfp]; rfl)
      rw [if_pos hm]
      simp only [Option.map_some', someOrLeft, Option.some.injEq, Prod.mk.injEq]
      exact ⟨fun h => ⟨h.1, h.2.symm⟩, fun h => ⟨h.1, h.2.symm⟩⟩
  | none =>
      have hm : ¬ mappedIn P e.domain := by
        rw [hmapped, hfp]
        exact fun h => by cases h
      rw [if_neg hm]
      cases hfg : G.mappings.reverse.find? (fun mp => decide (mp.domain = e.domain)) with
      | some mp =>
          simp only [Option.map_some', Option.map_none', noneOrLeft,
            Option.some.injEq, Prod.mk.injEq]
          exact ⟨fun h => ⟨h.1, h.2.symm⟩, fun h => ⟨h.1, h.2.symm⟩⟩
      | none =>
          simp

/-- Witness for C3: the merge scenario from the spec, with the project
overriding `api.test` and the global supplying `app.test`. -/
theorem c3_merge_witness :
    (∀ d, tblGet (merge_configs ⟨[⟨"api.test".data, 5001⟩], []⟩
        ⟨[⟨"api.test".data, 5000⟩, ⟨"app.test".data, 3000⟩], []⟩) d =
      (portOf ⟨[⟨"api.test".data, 5001⟩], []⟩ d).or
        (portOf ⟨[⟨"api.test".data, 5000⟩, ⟨"app.test".data, 3000⟩], []⟩ d)) ∧
    (∀ e, e ∈ merge_configs_with_source ⟨[⟨"api.test".data, 5001⟩], []⟩
        ⟨[⟨"api.test".data, 5000⟩, ⟨"app.test".data, 3000⟩], []⟩ ↔
      (tblGet (merge_configs ⟨[⟨"api.test".data, 5001⟩], []⟩
          ⟨[⟨"api.test".data, 5000⟩, ⟨"app.test".data, 3000⟩], []⟩) e.domain = some e.port ∧
        e.source = (if mappedIn ⟨[⟨"api.test".data, 5001⟩], []⟩ e.domain
          then MappingSource.project else MappingSource.global))) ∧
    (merge_configs_with_source ⟨[⟨"api.test".data, 5001⟩], []⟩
      ⟨[⟨"api.test".data, 5000⟩, ⟨"app.test".data, 3000⟩], []⟩).Pairwise mmLe :=
  c3_merge ⟨[⟨"api.test".data, 5001⟩], []⟩
    ⟨[⟨"api.test".data, 5000⟩, ⟨"app.test".data, 3000⟩], []⟩ (by decide) (by decide)


/-! ## Claim theorems: SNI resolver (C2) -/

theorem lowerChar_idem (c : Char) : lowerChar (lowerChar c) = lowerChar c := by
  rw [char_eq_iff_toNat, toNat_lowerChar (lowerChar c), toNat_lowerChar c]
  by_cases h : 65 ≤ c.toNat ∧ c.toNat ≤ 90
  · rw [if_pos h, if_neg (show ¬(65 ≤ c.toNat + 32 ∧ c.toNat + 32 ≤ 90) by omega)]
  · rw [if_neg h, if_neg h]

theorem toLowerStr_idem (s : Str) : toLowerStr (toLowerStr s) = toLowerStr s := by
  unfold toLowerStr
  rw [List.map_map]
  apply List.map_congr_left
  intro c _
  exact lowerChar_idem c

theorem lookupCI_eq_tblGet (certs : List (Str × Nat))
    (hkeys : ∀ p ∈ certs, toLowerStr p.1 = p.1) (k : Str) :
    lookupCI certs k = tblGet certs k := by
  unfold lookupCI tblGet
  rw [find?_congr_mem certs _ _ (fun p hp => decide_eq_decide.mpr (by rw [hkeys p hp]))]

theorem resolveLoop_cons (certs : List (Str × Nat)) (name : Str) (rest : List Str) :
    resolveLoop certs (name :: rest) =
      if name = [] then resolveLoop certs rest
      else
        match tblGet certs (toLowerStr name) with
        | some c => some c
        | none => resolveLoop certs rest := rfl

theorem resolve_eq_spec_some (certs : List (Str × Nat))
    (hkeys : ∀ p ∈ certs, toLowerStr p.1 = p.1) (s0 : Str) :
    resolve certs (some s0) = resolveSpec certs (some s0) := by
  have hresolve : resolve certs (some s0) =
      if trimStr s0 = [] then none
      else if toLowerStr (trimStr s0) ∈ UNSUPPORTED_SNI then none
      else resolveLoop certs
        (if hasColon (trimStr s0) then
          [trimStr s0, trimStr (beforeColon (trimStr s0))] else [trimStr s0]) := rfl
  have hspec : resolveSpec certs (some s0) =
      if toLowerStr (trimStr s0) = [] then none
      else if toLowerStr (trimStr s0) ∈ UNSUPPORTED_SNI then none
      else
        match lookupCI certs (toLowerStr (trimStr s0)) with
        | some c => some c
        | none =>
            if hasColon (toLowerStr (trimStr s0)) then
              if trimStr (beforeColon (toLowerStr (trimStr s0))) = [] then none
              else lookupCI certs (trimStr (beforeColon (toLowerStr (trimStr s0))))
            else none := rfl
  rw [hresolve, hspec]
  by_cases hs : trimStr s0 = []
  · rw [if_pos hs, if_pos ((toLowerStr_eq_nil _).mpr hs)]
  · rw [if_neg hs, if_neg (fun ht => hs ((toLowerStr_eq_nil _).mp ht))]
    by_cases hu : toLowerStr (trimStr s0) ∈ UNSUPPORTED_SNI
    · rw [if_pos hu, if_pos hu]
    · rw [if_neg hu, if_neg hu]
      rw [lookupCI_eq_tblGet certs hkeys, hasColon_toLowerStr]
      have hportion : trimStr (beforeColon (toLowerStr (trimStr s0)))
          = toLowerStr (trimStr (beforeColon (trimStr s0))) := by
        rw [← toLowerStr_beforeColon, ← toLowerStr_trimStr]
      by_cases hc : hasColon (trimStr s0) = true
      · rw [if_pos hc, if_pos hc]
        rw [resolveLoop_cons, if_neg hs]
        cases tblGet certs (toLowerStr (trimStr s0)) with
        | some c => rfl
        | none =>
            rw [resolveLoop_cons]
            by_cases hp : trimStr (beforeColon (trimStr s0)) = []
            · rw [if_pos hp, hportion, if_pos ((toLowerStr_eq_nil _).mpr hp)]
              rfl
            · rw [if_neg hp, hportion,
                if_neg (fun ht => hp ((toLowerStr_eq_nil _).mp ht)),
                lookupCI_eq_tblGet certs hkeys]
              cases tblGet certs (toLowerStr (trimStr (beforeColon (trimStr s0)))) with
              | some c => rfl
              | none => rfl
      · rw [if_neg hc, if_neg hc]
        rw [resolveLoop_cons, if_neg hs]
        cases tblGet certs (toLowerStr (trimStr s0)) with
        | some c => rfl
        | none => rfl

/-- C2: with the certificate table keyed by lowercased domains (as
`build_cert_resolver` builds it), `resolve` returns no certificate for
an absent SNI, a blank SNI, or (case-insensitively) localhost,
127.0.0.1 or ::1; otherwise it behaves exactly as the spec-level
description `resolveSpec` — look up the lowercased SNI
case-insensitively against the stored keys, additionally trying the
portion before the first colon, returning the first hit — and the
result is insensitive to the case of the SNI. -/
theorem c2_resolve (certs : List (Str × Nat))
    (hkeys : ∀ p ∈ certs, toLowerStr p.1 = p.1) :
    (∀ sni, resolve certs sni = resolveSpec certs sni) ∧
    (∀ s0, resolve certs (some s0) = resolve certs (some (toLowerStr s0))) := by
  have hmain : ∀ sni, resolve certs sni = resolveSpec certs sni := by
    intro sni
    cases sni with
    | none => rfl
    | some s0 => exact resolve_eq_spec_some certs hkeys s0
  refine ⟨hmain, fun s0 => ?_⟩
  rw [hmain (some s0), hmain (some (toLowerStr s0))]
  have ht : toLowerStr (trimStr (toLowerStr s0)) = toLowerStr (trimStr s0) := by
    rw [← toLowerStr_trimStr, toLowerStr_idem]
  have hspec : ∀ x : Str, resolveSpec certs (some x) =
      if toLowerStr (trimStr x) = [] then none
      else if toLowerStr (trimStr x) ∈ UNSUPPORTED_SNI then none
      else
        match lookupCI certs (toLowerStr (trimStr x)) with
        | some c => some c
        | none =>
            if hasColon (toLowerStr (trimStr x)) then
              if trimStr (beforeColon (toLowerStr (trimStr x))) = [] then none
              else lookupCI certs (trimStr (beforeColon (toLowerStr (trimStr x))))
            else none := fun _ => rfl
  rw [hspec s0, hspec (toLowerStr s0), ht]

/-- Witness for C2: a concrete lowercase-keyed table resolved with an
uppercase, port-carrying SNI. -/
theorem c2_resolve_witness :
    resolve [("app.test".data, 7)] (some "APP.TEST:8443".data) =
      resolveSpec [("app.test".data, 7)] (some "APP.TEST:8443".data) ∧
    resolve [("app.test".data, 7)] (some "APP.TEST".data) =
      resolve [("app.test".data, 7)] (some (toLowerStr "APP.TEST".data)) :=
  ⟨(c2_resolve [("app.test".data, 7)] (by decide)).1 (some "APP.TEST:8443".data),
   (c2_resolve [("app.test".data, 7)] (by decide)).2 "APP.TEST".data⟩


/-! ## Claim theorems: proxy port choice (C4) and X-Forwarded-For (C10) -/

/-- C4: the backend port is the explicit host port when it is present
and differs from 443; otherwise it is the mapping for the lowercased
domain with a case-insensitive linear fallback; when nothing matches the
proxy answers 400 (`unknownDomain`, no backend contacted); and host
parsing honours bracketed IPv6 literals: `[::1]:8443` parses to host
`[::1]` and port 8443. -/
theorem c4_proxy_port_choice (mappings : List (Str × Nat))
    (hostHeader uriAuthority : Option Str) (remote : SockAddr) (isTls : Bool) :
    (hostHeader.or uriAuthority = none →
      proxy_request mappings hostHeader uriAuthority remote isTls = .missingHost) ∧
    (∀ h, hostHeader.or uriAuthority = some h →
      (∀ p, (parse_host h).2 = some p → p ≠ 443 →
        forwardPort (proxy_request mappings hostHeader uriAuthority remote isTls)
          = some p) ∧
      (((parse_host h).2 = none ∨ (parse_host h).2 = some 443) →
        forwardPort (proxy_request mappings hostHeader uriAuthority remote isTls)
          = lookupPort mappings (parse_host h).1 ∧
        (lookupPort mappings (parse_host h).1 = none →
          proxy_request mappings hostHeader uriAuthority remote isTls
            = .unknownDomain))) ∧
    parse_host "[::1]:8443".data = ("[::1]".data, some 8443) := by
  refine ⟨?_, ?_, by decide⟩
  · intro horu
    unfold proxy_request
    rw [horu]
  · intro h horu
    have hred : proxy_request mappings hostHeader uriAuthority remote isTls =
        match (match (parse_host h).2 with
          | some p => if p = 443 then lookupPort mappings (parse_host h).1 else some p
          | none => lookupPort mappings (parse_host h).1) with
        | none => ProxyOutcome.unknownDomain
        | some p => ProxyOutcome.forward p (renderSockAddr remote)
            (if isTls then "https".data else "http".data) (parse_host h).1 := by
      unfold proxy_request
      rw [horu]
    constructor
    · intro p hp hne
      rw [hred, hp]
      show forwardPort (match (if p = 443 then lookupPort mappings (parse_host h).1
          else some p) with
        | none => ProxyOutcome.unknownDomain
        | some q => ProxyOutcome.forward q (renderSockAddr remote)
            (if isTls = true then "https".data else "http".data) (parse_host h).1)
        = some p
      rw [if_neg hne]
      rfl
    · intro hor
      have hsel : (match (parse_host h).2 with
          | some p => if p = 443 then lookupPort mappings (parse_host h).1 else some p
          | none => lookupPort mappings (parse_host h).1)
          = lookupPort mappings (parse_host h).1 := by
        rcases hor with hp | hp
        · rw [hp]
        · rw [hp]
          show (if (443 : Nat) = 443 then lookupPort mappings (parse_host h).1
            else some 443) = lookupPort mappings (parse_host h).1
          rw [if_pos rfl]
      rw [hred, hsel]
      cases hlk : lookupPort mappings (parse_host h).1 with
      | none => exact ⟨rfl, fun _ => rfl⟩
      | some q => exact ⟨rfl, fun hc => by cases hc⟩

/-- Witness for C4: an explicit non-443 port (8080) wins over the
mapping; with port 443 the mapping is used; an unmapped host gets the
400 outcome. -/
theorem c4_proxy_port_choice_witness :
    (∀ p, (parse_host "app.test:8080".data).2 = some p → p ≠ 443 →
      forwardPort (proxy_request [("app.test".data, 3000)]
        (some "app.test:8080".data) none ⟨"1.2.3.4".data, 55⟩ true) = some p) ∧
    forwardPort (proxy_request [("app.test".data, 3000)]
      (some "app.test:443".data) none ⟨"1.2.3.4".data, 55⟩ true)
      = lookupPort [("app.test".data, 3000)] (parse_host "app.test:443".data).1 ∧
    proxy_request [("app.test".data, 3000)]
      (some "x.test".data) none ⟨"1.2.3.4".data, 55⟩ true
      = ProxyOutcome.unknownDomain :=
  ⟨((c4_proxy_port_choice [("app.test".data, 3000)] (some "app.test:8080".data) none
      ⟨"1.2.3.4".data, 55⟩ true).2.1 "app.test:8080".data rfl).1,
   (((c4_proxy_port_choice [("app.test".data, 3000)] (some "app.test:443".data) none
      ⟨"1.2.3.4".data, 55⟩ true).2.1 "app.test:443".data rfl).2 (by decide)).1,
   (((c4_proxy_port_choice [("app.test".data, 3000)] (some "x.test".data) none
      ⟨"1.2.3.4".data, 55⟩ true).2.1 "x.test".data rfl).2 (by decide)).2 (by decide)⟩

/-- C10: every request the proxy forwards to a backend carries an
`X-Forwarded-For` value equal to the client's full rendered socket
address — the IP followed by a colon and the remote port — and in
particular not the bare IP. -/
theorem c10_xff_full_socket_addr (mappings : List (Str × Nat))
    (hostHeader uriAuthority : Option Str) (remote : SockAddr) (isTls : Bool)
    (p : Nat) (xff xfp xfh : Str)
    (h : proxy_request mappings hostHeader uriAuthority remote isTls
      = .forward p xff xfp xfh) :
    xff = renderSockAddr remote ∧
    xff = remote.ip ++ ':' :: Nat.toDigits 10 remote.port ∧
    xff ≠ remote.ip := by
  have hxff : xff = renderSockAddr remote := by
    cases horu : hostHeader.or uriAuthority with
    | none =>
        rw [show proxy_request mappings hostHeader uriAuthority remote isTls
          = ProxyOutcome.missingHost by unfold proxy_request; rw [horu]] at h
        cases h
    | some hh =>
        have hred : proxy_request mappings hostHeader uriAuthority remote isTls =
            match (match (parse_host hh).2 with
              | some q => if q = 443 then lookupPort mappings (parse_host hh).1 else some q
              | none => lookupPort mappings (parse_host hh).1) with
            | none => ProxyOutcome.unknownDomain
            | some q => ProxyOutcome.forward q (renderSockAddr remote)
                (if isTls then "https".data else "http".data) (parse_host hh).1 := by
          unfold proxy_request
          rw [horu]
        rw [hred] at h
        cases hq : (match (parse_host hh).2 with
            | some q => if q = 443 then lookupPort mappings (parse_host hh).1 else some q
            | none => lookupPort mappings (parse_host hh).1) with
        | none =>
            rw [hq] at h
            cases h
        | some q =>
            rw [hq] at h
            injection h with h1 h2 h3 h4
            exact h2.symm
  refine ⟨hxff, hxff, ?_⟩
  rw [hxff]
  intro he
  have hlen := congrArg List.length he
  rw [show renderSockAddr remote = remote.ip ++ ':' :: Nat.toDigits 10 remote.port
    from rfl, List.length_append] at hlen
  simp at hlen

/-- Witness for C10: a concrete forwarded request carries
`1.2.3.4:55`, not `1.2.3.4`. -/
theorem c10_xff_full_socket_addr_witness :
    "1.2.3.4:55".data = renderSockAddr ⟨"1.2.3.4".data, 55⟩ ∧
    "1.2.3.4:55".data =
      "1.2.3.4".data ++ ':' :: Nat.toDigits 10 55 ∧
    "1.2.3.4:55".data ≠ "1.2.3.4".data :=
  c10_xff_full_socket_addr [("app.test".data, 3000)] (some "app.test".data) none
    ⟨"1.2.3.4".data, 55⟩ true 3000 "1.2.3.4:55".data "https".data "app.test".data
    (by decide)

end Roost
